import Mathlib

/-!
Verification of `scripts/export_proofs.py`, the proof-exporter utility of the
sponge-protocol repository.  The script reads, per circuit directory, a binary
proof blob and a binary public-inputs blob, hex-encodes them, and writes a JSON
record next to the inputs; a thin CLI loop runs it over a list of circuit names.

Shallow embedding: bytes are natural numbers (< 256 on valid inputs), files are
an association list from paths to byte sequences, exceptions become `Except`,
and each filesystem-mutating operation threads the filesystem state explicitly.
A result of the form `(.ok report, fs)` models a zero exit status with the
report printed; `(.error e, fs)` models an uncaught exception: non-zero exit
status and no report printed.
-/

deriving instance DecidableEq for Except

namespace ExportProofs

/-- A byte sequence (`bytes` in the source); valid bytes are `< 256`. -/
abbrev ByteSeq := List Nat

/-- `FIELD_ELEMENT_SIZE = 32` from the source. -/
def FIELD_ELEMENT_SIZE : Nat := 32

/-- The lowercase hex digit for a value `< 16`, as produced by `bytes.hex()`:
digits `0`-`9` are code points 48-57, letters `a`-`f` are 97-102. -/
def hexDigitChar (n : Nat) : Char :=
  if n < 10 then Char.ofNat (48 + n) else Char.ofNat (87 + n)

/-- The character sequence of Python's `data.hex()`: two lowercase hex digits
per byte, most significant nibble first. -/
def hexChars : ByteSeq → List Char
  | [] => []
  | b :: rest => hexDigitChar (b / 16) :: hexDigitChar (b % 16) :: hexChars rest

/-- Python's `data.hex()`. -/
def bytesHex (data : ByteSeq) : String := String.mk (hexChars data)

/-- `to_hex` from the source: `"0x" + data.hex()`. -/
def to_hex (data : ByteSeq) : String := "0x" ++ bytesHex data

/-- Numeric value of one lowercase hex digit character (inverse of
`hexDigitChar` on digits `< 16`). -/
def hexCharVal (c : Char) : Nat :=
  if 97 ≤ c.toNat then c.toNat - 87 else c.toNat - 48

/-- Decode consecutive pairs of hex characters into bytes. -/
def decodePairs : List Char → ByteSeq
  | c1 :: c2 :: rest => (16 * hexCharVal c1 + hexCharVal c2) :: decodePairs rest
  | _ => []

/-- Decode a `0x`-prefixed hex string back into bytes (the spec's
`hex_decode`, used to state the round-trip property). -/
def hex_decode (s : String) : ByteSeq := decodePairs (s.data.drop 2)

/-- The sixteen characters `bytes.hex()` may emit: the decimal digits followed
by the first six lowercase letters. -/
def lowercaseHexDigits : List Char :=
  (List.range 10).map (fun n => Char.ofNat (48 + n)) ++
    (List.range 6).map (fun n => Char.ofNat (97 + n))

/-- A filesystem path, as its list of components (`Path` segments). -/
abbrev Path := List String

/-- First-match lookup in the file table. -/
def lookupFile : List (Path × ByteSeq) → Path → Option ByteSeq
  | [], _ => none
  | (q, d) :: rest, p => if q = p then some d else lookupFile rest p

/-- The filesystem: a table of files, newest entry first. -/
structure FS where
  files : List (Path × ByteSeq)
deriving DecidableEq

/-- Python `path.read_bytes()` (as an `Option`: `none` when the file is absent). -/
def FS.read (fs : FS) (p : Path) : Option ByteSeq := lookupFile fs.files p

/-- Python `path.exists()`. -/
def FS.pathExists (fs : FS) (p : Path) : Bool := (fs.read p).isSome

/-- Writing a file: the new entry shadows any previous one at the same path. -/
def FS.write (fs : FS) (p : Path) (d : ByteSeq) : FS := ⟨(p, d) :: fs.files⟩

/-- UTF-8 encoding of one character (standard 1-4 byte encoding). -/
def encodeChar (c : Char) : ByteSeq :=
  let v := c.toNat
  if v < 128 then [v]
  else if v < 2048 then [192 + v / 64, 128 + v % 64]
  else if v < 65536 then [224 + v / 4096, 128 + (v / 64) % 64, 128 + v % 64]
  else [240 + v / 262144, 128 + (v / 4096) % 64, 128 + (v / 64) % 64, 128 + v % 64]

/-- UTF-8 bytes of a string, the persisted form of Python's `write_text`. -/
def strBytes (s : String) : ByteSeq := (s.data.map encodeChar).flatten

/-- The script's error conditions: `malformedInput` is the `ValueError` raised
by `read_public_inputs` (carrying the offending path and observed length),
`missingArtifact` is the `FileNotFoundError` raised by `export_directory`
(carrying only the directory), and `ioReadFailure` models an OS-level read
error on an absent file. -/
inductive ExportError
  | malformedInput (path : Path) (length : Nat)
  | missingArtifact (dir : Path)
  | ioReadFailure (path : Path)
deriving DecidableEq

/-- Chunking worker: peels `data[0:32]` off the front while data remains; the
fuel only forces structural termination and is always sufficient at the call
site below, since every step consumes at least one byte. -/
def fieldChunksAux : Nat → ByteSeq → List ByteSeq
  | _, [] => []
  | 0, _ => []
  | fuel + 1, data =>
    data.take FIELD_ELEMENT_SIZE :: fieldChunksAux fuel (data.drop FIELD_ELEMENT_SIZE)

/-- The 32-byte windows `data[i : i + 32]` for `i in range(0, len(data), 32)`. -/
def fieldChunks (data : ByteSeq) : List ByteSeq := fieldChunksAux data.length data

/-- `read_public_inputs` from the source. -/
def read_public_inputs (fs : FS) (path : Path) : Except ExportError (List String) :=
  match fs.read path with
  | none => .error (.ioReadFailure path)
  | some data =>
    if data.length % FIELD_ELEMENT_SIZE ≠ 0 then
      .error (.malformedInput path data.length)
    else
      .ok ((fieldChunks data).map to_hex)

/-- The circuit export record (`payload` in the source): key `proof` then key
`public_inputs`. -/
structure Payload where
  proof : String
  public_inputs : List String
deriving DecidableEq

/-- A JSON string literal (the hex strings involved need no escaping). -/
def jsonStr (s : String) : String := "\"" ++ s ++ "\""

/-- `json.dumps` rendering of the `public_inputs` list at nesting depth 1 with
`indent=2`. -/
def renderPublicInputs (l : List String) : String :=
  match l with
  | [] => "[]"
  | _ =>
    "[\n" ++ String.intercalate ",\n" (l.map (fun s => "    " ++ jsonStr s)) ++ "\n  ]"

/-- `json.dumps(payload, indent=2)`: a two-key object, `proof` first, then
`public_inputs`, each key indented two spaces. -/
def renderPayload (p : Payload) : String :=
  "\x7b\n  \"proof\": " ++ jsonStr p.proof ++ ",\n  \"public_inputs\": " ++
    renderPublicInputs p.public_inputs ++ "\n\x7d"

/-- `export_directory` from the source.  The second component is the filesystem
after the call; every `raise` aborts with the filesystem as it stood. -/
def export_directory (fs : FS) (dir : Path) : Except ExportError Payload × FS :=
  let proof_path := dir ++ ["target", "proof"]
  let public_inputs_path := dir ++ ["target", "public_inputs"]
  if !fs.pathExists proof_path || !fs.pathExists public_inputs_path then
    (.error (.missingArtifact dir), fs)
  else
    match fs.read proof_path with
    | none => (.error (.ioReadFailure proof_path), fs)
    | some proofBytes =>
      match read_public_inputs fs public_inputs_path with
      | .error e => (.error e, fs)
      | .ok public_inputs_hex =>
        let payload : Payload := ⟨to_hex proofBytes, public_inputs_hex⟩
        let output_path := dir ++ ["target", "proof.json"]
        (.ok payload, fs.write output_path (strBytes (renderPayload payload)))

/-- The default circuit list of the `circuits` CLI argument. -/
def defaultCircuits : List String := ["deposit", "transfer", "withdraw"]

/-- `results[circuit] = payload` on a Python `dict`: an existing key keeps its
position and gets the new value; a new key is appended. -/
def dictInsert (d : List (String × Payload)) (k : String) (v : Payload) :
    List (String × Payload) :=
  if d.any (fun e => e.1 == k) then
    d.map (fun e => if e.1 = k then (k, v) else e)
  else d ++ [(k, v)]

/-- The `for circuit in args.circuits` loop of `main`. -/
def processCircuits (baseDir : Path) :
    FS → List String → List (String × Payload) →
      Except ExportError (List (String × Payload)) × FS
  | fs, [], results => (.ok results, fs)
  | fs, circuit :: rest, results =>
    match export_directory fs (baseDir ++ [circuit]) with
    | (.error e, fs1) => (.error e, fs1)
    | (.ok payload, fs1) =>
      processCircuits baseDir fs1 rest (dictInsert results circuit payload)

/-- `main`: `argparse` with `nargs="*"` substitutes the default list when no
positional argument is given, then the loop runs.  `.ok results` means the
report `results` is printed and the exit status is zero; `.error` means an
uncaught exception, no report, non-zero exit. -/
def runMain (fs : FS) (args : List String) (baseDir : Path) :
    Except ExportError (List (String × Payload)) × FS :=
  let circuits := if args = [] then defaultCircuits else args
  processCircuits baseDir fs circuits []

/-- Execution trace of the main loop: one `(circuit, payload)` pair per
processed name, in execution order, together with the final filesystem.  It
invokes `export_directory` exactly as `processCircuits` does and differs from
it only in recording every occurrence instead of folding the pairs into the
report; the theorem `processCircuits_trace` proves the correspondence. -/
def exportTrace (baseDir : Path) :
    FS → List String → Except ExportError (List (String × Payload) × FS)
  | fs, [] => .ok ([], fs)
  | fs, circuit :: rest =>
    match export_directory fs (baseDir ++ [circuit]) with
    | (.error e, _) => .error e
    | (.ok payload, fs1) =>
      match exportTrace baseDir fs1 rest with
      | .error e => .error e
      | .ok (tr, fs2) => .ok ((circuit, payload) :: tr, fs2)

/-- Folding a trace into the aggregate report by repeated dict assignment. -/
def applyTrace (acc : List (String × Payload)) (tr : List (String × Payload)) :
    List (String × Payload) :=
  tr.foldl (fun d e => dictInsert d e.1 e.2) acc

/-! ## Helper lemmas: hex encoding -/

theorem hexCharVal_hexDigitChar (d : Nat) (h : d < 16) :
    hexCharVal (hexDigitChar d) = d := by
  interval_cases d <;> rfl

theorem hexDigitChar_mem (d : Nat) (h : d < 16) :
    hexDigitChar d ∈ lowercaseHexDigits := by
  interval_cases d <;> decide

theorem decodePairs_hexChars (b : ByteSeq) (hb : ∀ x ∈ b, x < 256) :
    decodePairs (hexChars b) = b := by
  induction b with
  | nil => rfl
  | cons x rest ih =>
    have hx : x < 256 := hb x (by simp)
    have hdiv : x / 16 < 16 := by omega
    have hmod : x % 16 < 16 := Nat.mod_lt _ (by omega)
    simp only [hexChars, decodePairs]
    rw [hexCharVal_hexDigitChar _ hdiv, hexCharVal_hexDigitChar _ hmod,
      ih (fun y hy => hb y (by simp [hy]))]
    congr 1
    omega

theorem length_hexChars (b : ByteSeq) : (hexChars b).length = 2 * b.length := by
  induction b with
  | nil => rfl
  | cons x rest ih =>
    simp only [hexChars, List.length_cons, ih]
    omega

theorem to_hex_data (b : ByteSeq) : (to_hex b).data = '0' :: 'x' :: hexChars b := by
  show (("0x" : String) ++ bytesHex b).data = _
  rw [String.data_append]
  rfl

theorem hex_decode_to_hex (b : ByteSeq) (hb : ∀ x ∈ b, x < 256) :
    hex_decode (to_hex b) = b := by
  unfold hex_decode
  rw [to_hex_data]
  exact decodePairs_hexChars b hb

theorem length_to_hex (b : ByteSeq) : (to_hex b).length = 2 * b.length + 2 := by
  show (to_hex b).data.length = _
  rw [to_hex_data]
  simp [length_hexChars]

theorem mem_hexChars (b : ByteSeq) (hb : ∀ x ∈ b, x < 256) :
    ∀ c ∈ hexChars b, c ∈ lowercaseHexDigits := by
  induction b with
  | nil => simp [hexChars]
  | cons x rest ih =>
    intro c hc
    have hx : x < 256 := hb x (by simp)
    simp only [hexChars, List.mem_cons] at hc
    rcases hc with h | h | h
    · exact h ▸ hexDigitChar_mem _ (by omega)
    · exact h ▸ hexDigitChar_mem _ (Nat.mod_lt _ (by omega))
    · exact ih (fun y hy => hb y (by simp [hy])) c h

/-! ## Helper lemmas: chunking -/

theorem fieldChunksAux_flatten (fuel : Nat) :
    ∀ data : ByteSeq, data.length ≤ fuel → (fieldChunksAux fuel data).flatten = data := by
  induction fuel with
  | zero =>
    intro data h
    have : data = [] := List.eq_nil_of_length_eq_zero (by omega)
    subst this
    rfl
  | succ n ih =>
    intro data h
    match data with
    | [] => rfl
    | x :: rest =>
      simp only [fieldChunksAux, List.flatten_cons]
      rw [ih _ (by simp [List.length_drop, FIELD_ELEMENT_SIZE] at h ⊢; omega)]
      exact List.take_append_drop _ _

theorem fieldChunks_flatten (data : ByteSeq) : (fieldChunks data).flatten = data :=
  fieldChunksAux_flatten data.length data le_rfl

theorem fieldChunksAux_length (fuel : Nat) :
    ∀ data : ByteSeq, data.length ≤ fuel → data.length % 32 = 0 →
      (fieldChunksAux fuel data).length = data.length / 32 := by
  induction fuel with
  | zero =>
    intro data h _
    have : data = [] := List.eq_nil_of_length_eq_zero (by omega)
    subst this
    rfl
  | succ n ih =>
    intro data h hm
    match data with
    | [] => rfl
    | x :: rest =>
      have hlen : (x :: rest).length = rest.length + 1 := by simp
      have h32 : 32 ≤ (x :: rest).length := by
        rcases Nat.lt_or_ge (x :: rest).length 32 with hlt | hge
        · interval_cases h : (x :: rest).length <;> omega
        · exact hge
      simp only [fieldChunksAux, List.length_cons]
      rw [ih _ (by simp [List.length_drop, FIELD_ELEMENT_SIZE]; omega)
        (by simp [List.length_drop, FIELD_ELEMENT_SIZE]; omega)]
      simp [List.length_drop, FIELD_ELEMENT_SIZE] at *
      omega

theorem fieldChunks_length (data : ByteSeq) (hm : data.length % 32 = 0) :
    (fieldChunks data).length = data.length / 32 :=
  fieldChunksAux_length data.length data le_rfl hm

theorem mem_fieldChunksAux (fuel : Nat) :
    ∀ data c, c ∈ fieldChunksAux fuel data → ∀ x ∈ c, x ∈ data := by
  induction fuel with
  | zero =>
    intro data c hc
    match data with
    | [] => simp [fieldChunksAux] at hc
    | _ :: _ => simp [fieldChunksAux] at hc
  | succ n ih =>
    intro data c hc x hx
    match data with
    | [] => simp [fieldChunksAux] at hc
    | y :: rest =>
      simp only [fieldChunksAux, List.mem_cons] at hc
      rcases hc with h | h
      · exact List.mem_of_mem_take (h ▸ hx)
      · exact List.mem_of_mem_drop (ih _ c h x hx)

theorem mem_fieldChunks (data c : ByteSeq) (hc : c ∈ fieldChunks data) :
    ∀ x ∈ c, x ∈ data :=
  mem_fieldChunksAux data.length data c hc

/-! ## Helper lemmas: filesystem -/

theorem FS.read_write_self (fs : FS) (p : Path) (d : ByteSeq) :
    (fs.write p d).read p = some d := by
  simp [FS.read, FS.write, lookupFile]

theorem FS.read_write_ne (fs : FS) (p q : Path) (d : ByteSeq) (h : q ≠ p) :
    (fs.write p d).read q = fs.read q := by
  simp only [FS.read, FS.write, lookupFile]
  rw [if_neg (fun hh : p = q => h hh.symm)]

theorem targetPath_ne (dir : Path) (a b : String) (h : a ≠ b) :
    dir ++ ["target", a] ≠ dir ++ ["target", b] := by
  intro hh
  exact h (by simpa using List.append_cancel_left hh)

/-! ## Helper lemmas: reader and exporter -/

theorem read_public_inputs_ok (fs : FS) (path : Path) (data : ByteSeq)
    (hread : fs.read path = some data) (hm : data.length % 32 = 0) :
    read_public_inputs fs path = .ok ((fieldChunks data).map to_hex) := by
  simp [read_public_inputs, hread, FIELD_ELEMENT_SIZE, hm]

theorem read_public_inputs_bad (fs : FS) (path : Path) (data : ByteSeq)
    (hread : fs.read path = some data) (hm : data.length % 32 ≠ 0) :
    read_public_inputs fs path = .error (.malformedInput path data.length) := by
  simp [read_public_inputs, hread, FIELD_ELEMENT_SIZE, hm]

theorem export_directory_cases (fs : FS) (dir : Path) :
    (∃ e, export_directory fs dir = (.error e, fs)) ∨
    (∃ p, export_directory fs dir =
      (.ok p, fs.write (dir ++ ["target", "proof.json"]) (strBytes (renderPayload p)))) := by
  simp only [export_directory]
  by_cases hc : (!fs.pathExists (dir ++ ["target", "proof"]) ||
      !fs.pathExists (dir ++ ["target", "public_inputs"])) = true
  · rw [if_pos hc]
    exact .inl ⟨_, rfl⟩
  · rw [if_neg hc]
    cases hr : fs.read (dir ++ ["target", "proof"]) with
    | none => exact .inl ⟨_, rfl⟩
    | some pb =>
      cases hri : read_public_inputs fs (dir ++ ["target", "public_inputs"]) with
      | error e => exact .inl ⟨_, rfl⟩
      | ok l => exact .inr ⟨_, rfl⟩

theorem export_directory_ok (fs : FS) (dir : Path) (proofBytes data : ByteSeq)
    (hp : fs.read (dir ++ ["target", "proof"]) = some proofBytes)
    (hq : fs.read (dir ++ ["target", "public_inputs"]) = some data)
    (hm : data.length % 32 = 0) :
    export_directory fs dir =
      (.ok ⟨to_hex proofBytes, (fieldChunks data).map to_hex⟩,
       fs.write (dir ++ ["target", "proof.json"])
         (strBytes (renderPayload ⟨to_hex proofBytes, (fieldChunks data).map to_hex⟩))) := by
  simp only [export_directory, FS.pathExists, hp, hq, Option.isSome_some, Bool.not_true,
    Bool.or_self, Bool.false_eq_true, if_false, read_public_inputs_ok fs _ data hq hm]

/-! ## Helper lemmas: the main loop -/

theorem processCircuits_cons_error (baseDir : Path) (fs fs1 : FS) (c : String)
    (rest : List String) (acc : List (String × Payload)) (e : ExportError)
    (h : export_directory fs (baseDir ++ [c]) = (.error e, fs1)) :
    processCircuits baseDir fs (c :: rest) acc = (.error e, fs1) := by
  simp [processCircuits, h]

theorem processCircuits_cons_ok (baseDir : Path) (fs fs1 : FS) (c : String)
    (rest : List String) (acc : List (String × Payload)) (p : Payload)
    (h : export_directory fs (baseDir ++ [c]) = (.ok p, fs1)) :
    processCircuits baseDir fs (c :: rest) acc =
      processCircuits baseDir fs1 rest (dictInsert acc c p) := by
  simp [processCircuits, h]

theorem dictInsert_append (d : List (String × Payload)) (k : String) (v : Payload)
    (h : ∀ e ∈ d, e.1 ≠ k) :
    dictInsert d k v = d ++ [(k, v)] := by
  unfold dictInsert
  rw [if_neg]
  simp only [List.any_eq_true, beq_iff_eq, not_exists]
  intro e
  intro hmem
  exact h e hmem.1 hmem.2

theorem processCircuits_keys (baseDir : Path) (cs : List String) :
    ∀ (fs : FS) (acc : List (String × Payload)) (r : List (String × Payload)) (fs2 : FS),
      cs.Nodup → (∀ c ∈ cs, ∀ e ∈ acc, e.1 ≠ c) →
      processCircuits baseDir fs cs acc = (.ok r, fs2) →
      r.map Prod.fst = acc.map Prod.fst ++ cs := by
  induction cs with
  | nil =>
    intro fs acc r fs2 _ _ h
    simp only [processCircuits, Prod.mk.injEq, Except.ok.injEq] at h
    simp [h.1]
  | cons c rest ih =>
    intro fs acc r fs2 hnd hdis h
    rcases hexp : export_directory fs (baseDir ++ [c]) with ⟨res, fs1⟩
    cases res with
    | error e =>
      rw [processCircuits_cons_error baseDir fs fs1 c rest acc e hexp] at h
      simp at h
    | ok p =>
      rw [processCircuits_cons_ok baseDir fs fs1 c rest acc p hexp,
        dictInsert_append acc c p (fun e he => hdis c (by simp) e he)] at h
      have hrest := ih fs1 (acc ++ [(c, p)]) r fs2 hnd.of_cons ?dis h
      · rw [hrest]
        simp
      case dis =>
        intro c2 hc2 e he
        rcases List.mem_append.mp he with hel | her
        · exact hdis c2 (by simp [hc2]) e hel
        · have : e = (c, p) := by simpa using her
          subst this
          intro hcc
          have hcc2 : c = c2 := hcc
          exact (List.nodup_cons.mp hnd).1 (by rw [hcc2]; exact hc2)

/-! ## Helper lemmas: dict semantics and the execution trace -/

theorem any_key_eq (d : List (String × Payload)) (k : String) :
    d.any (fun e => e.1 == k) = true ↔ k ∈ d.map Prod.fst := by
  simp [List.any_eq_true, beq_iff_eq, List.mem_map]

theorem lookup_none_of_not_mem_keys (c : String) (d : List (String × Payload))
    (h : c ∉ d.map Prod.fst) : List.lookup c d = none := by
  induction d with
  | nil => rfl
  | cons e rest ih =>
    rcases e with ⟨a, b⟩
    simp only [List.map_cons, List.mem_cons, not_or] at h
    have hba : (c == a) = false := beq_eq_false_iff_ne.mpr h.1
    simp [List.lookup, hba, ih h.2]

theorem lookup_append (c : String) (d1 d2 : List (String × Payload)) :
    List.lookup c (d1 ++ d2) =
      match List.lookup c d1 with
      | some v => some v
      | none => List.lookup c d2 := by
  induction d1 with
  | nil => simp [List.lookup]
  | cons e rest ih =>
    rcases e with ⟨a, b⟩
    cases hca : (c == a) <;> simp [List.lookup, hca, ih]

theorem lookup_map_replace_ne (c k : String) (v : Payload) (d : List (String × Payload))
    (hck : c ≠ k) :
    List.lookup c (d.map (fun e => if e.1 = k then (k, v) else e)) = List.lookup c d := by
  induction d with
  | nil => rfl
  | cons e rest ih =>
    rcases e with ⟨a, b⟩
    simp only [List.map_cons]
    by_cases hak : a = k
    · rw [if_pos (show ((a, b) : String × Payload).1 = k from hak)]
      have hbk : (c == k) = false := beq_eq_false_iff_ne.mpr hck
      have hba : (c == a) = false :=
        beq_eq_false_iff_ne.mpr (fun h => hck (h.trans hak))
      simp [List.lookup, hbk, hba, ih]
    · rw [if_neg (show ¬((a, b) : String × Payload).1 = k from hak)]
      cases hba : c == a <;> simp [List.lookup, hba, ih]

theorem lookup_map_replace_self (k : String) (v : Payload) (d : List (String × Payload))
    (hk : k ∈ d.map Prod.fst) :
    List.lookup k (d.map (fun e => if e.1 = k then (k, v) else e)) = some v := by
  induction d with
  | nil => simp at hk
  | cons e rest ih =>
    rcases e with ⟨a, b⟩
    simp only [List.map_cons]
    by_cases hak : a = k
    · rw [if_pos (show ((a, b) : String × Payload).1 = k from hak)]
      simp [List.lookup]
    · rw [if_neg (show ¬((a, b) : String × Payload).1 = k from hak)]
      have hk2 : k ∈ rest.map Prod.fst := by
        simp only [List.map_cons, List.mem_cons] at hk
        exact hk.resolve_left (fun hh => hak hh.symm)
      have hba : (k == a) = false := beq_eq_false_iff_ne.mpr (fun hh => hak hh.symm)
      simp [List.lookup, hba, ih hk2]

theorem lookup_dictInsert (c k : String) (v : Payload) (d : List (String × Payload)) :
    List.lookup c (dictInsert d k v) = if c = k then some v else List.lookup c d := by
  unfold dictInsert
  by_cases hk : d.any (fun e => e.1 == k) = true
  · rw [if_pos hk]
    by_cases hck : c = k
    · subst hck
      rw [if_pos rfl, lookup_map_replace_self c v d ((any_key_eq d c).mp hk)]
    · rw [if_neg hck, lookup_map_replace_ne c k v d hck]
  · rw [if_neg hk, lookup_append]
    by_cases hck : c = k
    · subst hck
      rw [lookup_none_of_not_mem_keys c d (fun hm => hk ((any_key_eq d c).mpr hm))]
      simp [List.lookup]
    · rw [if_neg hck]
      have hbk : (c == k) = false := beq_eq_false_iff_ne.mpr hck
      cases hl : List.lookup c d <;> simp [List.lookup, hl, hbk]

theorem keys_dictInsert (d : List (String × Payload)) (k : String) (v : Payload) :
    (dictInsert d k v).map Prod.fst =
      if k ∈ d.map Prod.fst then d.map Prod.fst else d.map Prod.fst ++ [k] := by
  unfold dictInsert
  by_cases hk : d.any (fun e => e.1 == k) = true
  · rw [if_pos hk, if_pos ((any_key_eq d k).mp hk), List.map_map]
    apply List.map_congr_left
    intro e he
    by_cases h1 : e.1 = k <;> simp [h1]
  · rw [if_neg hk, if_neg (fun hm => hk ((any_key_eq d k).mpr hm))]
    simp

theorem keys_dictInsert_nodup (d : List (String × Payload)) (k : String) (v : Payload)
    (h : (d.map Prod.fst).Nodup) : ((dictInsert d k v).map Prod.fst).Nodup := by
  rw [keys_dictInsert]
  by_cases hk : k ∈ d.map Prod.fst
  · rwa [if_pos hk]
  · rw [if_neg hk]
    simp [List.nodup_append, h, hk]

theorem mem_keys_dictInsert (d : List (String × Payload)) (k : String) (v : Payload)
    (c : String) (h : c ∈ d.map Prod.fst ∨ c = k) :
    c ∈ (dictInsert d k v).map Prod.fst := by
  rw [keys_dictInsert]
  rcases h with h | rfl
  · split <;> simp [h]
  · by_cases hk : c ∈ d.map Prod.fst
    · rw [if_pos hk]
      exact hk
    · rw [if_neg hk]
      simp

theorem applyTrace_nil (acc : List (String × Payload)) : applyTrace acc [] = acc := rfl

theorem applyTrace_cons (acc : List (String × Payload)) (k : String) (v : Payload)
    (tr : List (String × Payload)) :
    applyTrace acc ((k, v) :: tr) = applyTrace (dictInsert acc k v) tr := rfl

theorem keys_applyTrace_nodup (tr : List (String × Payload)) :
    ∀ acc : List (String × Payload), (acc.map Prod.fst).Nodup →
      ((applyTrace acc tr).map Prod.fst).Nodup := by
  induction tr with
  | nil =>
    intro acc h
    simpa [applyTrace_nil] using h
  | cons e tr2 ih =>
    intro acc h
    rcases e with ⟨k, v⟩
    rw [applyTrace_cons]
    exact ih _ (keys_dictInsert_nodup acc k v h)

theorem mem_keys_applyTrace (tr : List (String × Payload)) :
    ∀ (acc : List (String × Payload)) (c : String),
      c ∈ tr.map Prod.fst ∨ c ∈ acc.map Prod.fst →
      c ∈ (applyTrace acc tr).map Prod.fst := by
  induction tr with
  | nil =>
    intro acc c h
    rcases h with h | h
    · simp at h
    · simpa [applyTrace_nil] using h
  | cons e tr2 ih =>
    intro acc c h
    rcases e with ⟨k, v⟩
    rw [applyTrace_cons]
    apply ih
    rcases h with h | h
    · simp only [List.map_cons, List.mem_cons] at h
      rcases h with hck | h
      · exact Or.inr (mem_keys_dictInsert acc k v c (Or.inr hck))
      · exact Or.inl h
    · exact Or.inr (mem_keys_dictInsert acc k v c (Or.inl h))

theorem lookup_applyTrace (tr : List (String × Payload)) :
    ∀ (acc : List (String × Payload)) (c : String),
      List.lookup c (applyTrace acc tr) =
        match List.lookup c tr.reverse with
        | some w => some w
        | none => List.lookup c acc := by
  induction tr with
  | nil =>
    intro acc c
    simp [applyTrace_nil, List.lookup]
  | cons e tr2 ih =>
    intro acc c
    rcases e with ⟨k, v⟩
    rw [applyTrace_cons, ih, List.reverse_cons, lookup_append c tr2.reverse [(k, v)]]
    cases hl : List.lookup c tr2.reverse
    · by_cases hck : c = k
      · subst hck
        simp [List.lookup, lookup_dictInsert]
      · have hbk : (c == k) = false := beq_eq_false_iff_ne.mpr hck
        simp [List.lookup, lookup_dictInsert, hck, hbk]
    · simp

theorem filter_key_length_eq_count (r : List (String × Payload)) (c : String) :
    (r.filter (fun e => e.1 == c)).length = (r.map Prod.fst).count c := by
  induction r with
  | nil => rfl
  | cons e rest ih =>
    rcases e with ⟨a, b⟩
    by_cases hac : a = c
    · subst hac
      simp [List.filter, List.count_cons, ih]
    · have hbk : (a == c) = false := beq_eq_false_iff_ne.mpr hac
      simp [List.filter, List.count_cons, hbk, ih]

theorem processCircuits_trace (baseDir : Path) (cs : List String) :
    ∀ (fs : FS) (acc r : List (String × Payload)) (fs2 : FS),
      processCircuits baseDir fs cs acc = (.ok r, fs2) →
      ∃ tr : List (String × Payload),
        exportTrace baseDir fs cs = .ok (tr, fs2)
        ∧ r = applyTrace acc tr
        ∧ tr.map Prod.fst = cs := by
  induction cs with
  | nil =>
    intro fs acc r fs2 h
    simp only [processCircuits, Prod.mk.injEq, Except.ok.injEq] at h
    exact ⟨[], by rw [h.2]; rfl, by rw [h.1, applyTrace_nil], rfl⟩
  | cons c rest ih =>
    intro fs acc r fs2 h
    rcases hexp : export_directory fs (baseDir ++ [c]) with ⟨res, fs1⟩
    cases res with
    | error e =>
      rw [processCircuits_cons_error baseDir fs fs1 c rest acc e hexp] at h
      simp at h
    | ok p =>
      rw [processCircuits_cons_ok baseDir fs fs1 c rest acc p hexp] at h
      obtain ⟨tr2, htr2, hr2, hk2⟩ := ih fs1 (dictInsert acc c p) r fs2 h
      refine ⟨(c, p) :: tr2, ?_, ?_, ?_⟩
      · simp [exportTrace, hexp, htr2]
      · rw [applyTrace_cons, hr2]
      · simp [hk2]

/-! ## The claims -/

/-- C1: for a public-inputs file of byte length `32*k`, `read_public_inputs`
returns exactly `k` hex strings, obtained by hex-encoding the consecutive
non-overlapping 32-byte windows in file order, and the concatenation of the
decoded strings is the original file content; in particular a zero-length file
yields the empty sequence and is not an error. -/
theorem read_public_inputs_partitions (fs : FS) (path : Path) (data : ByteSeq) (k : Nat)
    (hread : fs.read path = some data) (hlen : data.length = 32 * k)
    (hbytes : ∀ b ∈ data, b < 256) :
    ∃ l : List String, read_public_inputs fs path = .ok l ∧ l.length = k ∧
      (l.map hex_decode).flatten = data := by
  have hm : data.length % 32 = 0 := by omega
  refine ⟨(fieldChunks data).map to_hex, read_public_inputs_ok fs path data hread hm, ?_, ?_⟩
  · rw [List.length_map, fieldChunks_length data hm, hlen]
    omega
  · rw [List.map_map]
    have hcongr : (fieldChunks data).map (hex_decode ∘ to_hex) = (fieldChunks data).map id := by
      apply List.map_congr_left
      intro c hc
      exact hex_decode_to_hex c (fun x hx => hbytes x (mem_fieldChunks data c hc x hx))
    rw [hcongr, List.map_id, fieldChunks_flatten]

/-- C1 witness: a 64-byte all-zero file yields two hex strings that decode back
to the 64 zero bytes, and a zero-length file yields the empty sequence. -/
theorem read_public_inputs_partitions_witness :
    (FS.read ⟨[(["d", "target", "public_inputs"], List.replicate 64 0)]⟩
        ["d", "target", "public_inputs"] = some (List.replicate 64 0)
      ∧ (List.replicate 64 (0 : Nat)).length = 32 * 2
      ∧ ∃ l : List String,
          read_public_inputs ⟨[(["d", "target", "public_inputs"], List.replicate 64 0)]⟩
              ["d", "target", "public_inputs"] = .ok l
            ∧ l.length = 2 ∧ (l.map hex_decode).flatten = List.replicate 64 0)
    ∧ (∃ l : List String,
        read_public_inputs ⟨[(["e", "target", "public_inputs"], [])]⟩
            ["e", "target", "public_inputs"] = .ok l
          ∧ l.length = 0 ∧ (l.map hex_decode).flatten = []) :=
  ⟨⟨by decide, by decide,
      read_public_inputs_partitions _ _ _ 2 (by decide) (by decide) (by decide)⟩,
    read_public_inputs_partitions _ _ _ 0 (by decide) (by decide) (by decide)⟩

/-- C2: `read_public_inputs` fails if and only if the file's byte length is not
a multiple of 32, and then the error is `malformedInput` carrying the offending
path and the observed length; inside `export_directory` the failure propagates
and the filesystem is left untouched (no output write), which makes the whole
run fatal. -/
theorem read_public_inputs_malformed_iff (fs : FS) (dir : Path) (data : ByteSeq)
    (hp : fs.pathExists (dir ++ ["target", "proof"]) = true)
    (hq : fs.read (dir ++ ["target", "public_inputs"]) = some data) :
    ((∃ e, read_public_inputs fs (dir ++ ["target", "public_inputs"]) = .error e) ↔
        data.length % 32 ≠ 0)
    ∧ (data.length % 32 ≠ 0 →
        read_public_inputs fs (dir ++ ["target", "public_inputs"])
            = .error (.malformedInput (dir ++ ["target", "public_inputs"]) data.length)
          ∧ export_directory fs dir
            = (.error (.malformedInput (dir ++ ["target", "public_inputs"]) data.length), fs)) := by
  constructor
  · constructor
    · rintro ⟨e, he⟩ hm
      rw [read_public_inputs_ok fs _ data hq hm] at he
      cases he
    · intro hm
      exact ⟨_, read_public_inputs_bad fs _ data hq hm⟩
  · intro hm
    have hbad := read_public_inputs_bad fs _ data hq hm
    refine ⟨hbad, ?_⟩
    obtain ⟨pb, hpb⟩ : ∃ pb, fs.read (dir ++ ["target", "proof"]) = some pb := by
      simpa [FS.pathExists, Option.isSome_iff_exists] using hp
    simp only [export_directory, FS.pathExists, hpb, hq, Option.isSome_some, Bool.not_true,
      Bool.or_self, Bool.false_eq_true, if_false, hbad]

/-- C2 witness: a 31-byte file is rejected with `malformedInput` carrying the
path and the length 31, and the exporter leaves the filesystem untouched. -/
theorem read_public_inputs_malformed_iff_witness :
    (FS.pathExists ⟨[(["d", "target", "proof"], [7]),
          (["d", "target", "public_inputs"], List.replicate 31 1)]⟩
        (["d"] ++ ["target", "proof"]) = true)
    ∧ (((∃ e, read_public_inputs ⟨[(["d", "target", "proof"], [7]),
            (["d", "target", "public_inputs"], List.replicate 31 1)]⟩
            (["d"] ++ ["target", "public_inputs"]) = .error e) ↔
          (List.replicate 31 (1 : Nat)).length % 32 ≠ 0)
        ∧ ((List.replicate 31 (1 : Nat)).length % 32 ≠ 0 →
            read_public_inputs ⟨[(["d", "target", "proof"], [7]),
                (["d", "target", "public_inputs"], List.replicate 31 1)]⟩
                (["d"] ++ ["target", "public_inputs"])
              = .error (.malformedInput (["d"] ++ ["target", "public_inputs"])
                  (List.replicate 31 (1 : Nat)).length)
            ∧ export_directory ⟨[(["d", "target", "proof"], [7]),
                (["d", "target", "public_inputs"], List.replicate 31 1)]⟩ ["d"]
              = (.error (.malformedInput (["d"] ++ ["target", "public_inputs"])
                  (List.replicate 31 (1 : Nat)).length),
                 ⟨[(["d", "target", "proof"], [7]),
                   (["d", "target", "public_inputs"], List.replicate 31 1)]⟩))) :=
  ⟨by decide, read_public_inputs_malformed_iff _ ["d"] _ (by decide) (by decide)⟩

/-- C3: `to_hex` yields a `0x`-prefixed lowercase hex string with exactly two
hex characters per input byte (length `2*len(b)+2`, and `"0x"` on empty input),
and decoding its hex characters recovers the input bytes. -/
theorem to_hex_contract (b : ByteSeq) (hb : ∀ x ∈ b, x < 256) :
    (to_hex b).length = 2 * b.length + 2
    ∧ (to_hex b).data.take 2 = ['0', 'x']
    ∧ (∀ c ∈ (to_hex b).data.drop 2, c ∈ lowercaseHexDigits)
    ∧ hex_decode (to_hex b) = b
    ∧ to_hex [] = "0x" := by
  refine ⟨length_to_hex b, ?_, ?_, hex_decode_to_hex b hb, by decide⟩
  · rw [to_hex_data]
    rfl
  · rw [to_hex_data]
    exact mem_hexChars b hb

/-- C3 witness: the contract evaluated on the two-byte input `[0xab, 0xcd]`. -/
theorem to_hex_contract_witness :
    (to_hex [171, 205]).length = 2 * 2 + 2
    ∧ (to_hex [171, 205]).data.take 2 = ['0', 'x']
    ∧ (∀ c ∈ (to_hex [171, 205]).data.drop 2, c ∈ lowercaseHexDigits)
    ∧ hex_decode (to_hex [171, 205]) = [171, 205]
    ∧ to_hex [] = "0x" := by
  have h := to_hex_contract [171, 205] (by decide)
  simpa using h

/-- C4: when either `target/proof` or `target/public_inputs` is absent,
`export_directory` fails with `missingArtifact` naming the directory (not the
specific file), before any read, and the filesystem is untouched: no
`proof.json` is written. -/
theorem export_directory_missing_artifact (fs : FS) (dir : Path)
    (h : fs.pathExists (dir ++ ["target", "proof"]) = false ∨
         fs.pathExists (dir ++ ["target", "public_inputs"]) = false) :
    export_directory fs dir = (.error (.missingArtifact dir), fs)
    ∧ (export_directory fs dir).2.read (dir ++ ["target", "proof.json"])
        = fs.read (dir ++ ["target", "proof.json"]) := by
  have hc : (!fs.pathExists (dir ++ ["target", "proof"]) ||
      !fs.pathExists (dir ++ ["target", "public_inputs"])) = true := by
    rcases h with h | h <;> simp [h]
  have hres : export_directory fs dir = (.error (.missingArtifact dir), fs) := by
    simp only [export_directory]
    rw [if_pos hc]
  exact ⟨hres, by rw [hres]⟩

/-- C4 witness: a directory with a valid `public_inputs` but no `proof` file is
rejected with `missingArtifact ["d"]`, and the filesystem — which already held
a malformed `public_inputs` in a sibling directory — is unchanged. -/
theorem export_directory_missing_artifact_witness :
    (FS.pathExists ⟨[(["d", "target", "public_inputs"], List.replicate 32 0)]⟩
        (["d"] ++ ["target", "proof"]) = false ∨
      FS.pathExists ⟨[(["d", "target", "public_inputs"], List.replicate 32 0)]⟩
        (["d"] ++ ["target", "public_inputs"]) = false)
    ∧ (export_directory ⟨[(["d", "target", "public_inputs"], List.replicate 32 0)]⟩ ["d"]
        = (.error (.missingArtifact ["d"]),
           ⟨[(["d", "target", "public_inputs"], List.replicate 32 0)]⟩)
      ∧ (export_directory ⟨[(["d", "target", "public_inputs"], List.replicate 32 0)]⟩
            ["d"]).2.read (["d"] ++ ["target", "proof.json"])
          = FS.read ⟨[(["d", "target", "public_inputs"], List.replicate 32 0)]⟩
              (["d"] ++ ["target", "proof.json"])) :=
  ⟨Or.inl (by decide), export_directory_missing_artifact _ ["d"] (Or.inl (by decide))⟩

/-- C5: on success `export_directory` writes to the fixed path
`dir/target/proof.json`, overwriting whatever was there, the UTF-8 bytes of the
pretty-printed two-key JSON object (`proof` first, then `public_inputs`, at
2-space indentation), where `proof` is the hex encoding of the proof file bytes
and `public_inputs` is the reader's sequence, and it returns that same record. -/
theorem export_directory_success_output (fs : FS) (dir : Path)
    (proofBytes data : ByteSeq)
    (hp : fs.read (dir ++ ["target", "proof"]) = some proofBytes)
    (hq : fs.read (dir ++ ["target", "public_inputs"]) = some data)
    (hm : data.length % 32 = 0) :
    ∃ (payload : Payload) (fs1 : FS),
      export_directory fs dir = (.ok payload, fs1)
      ∧ payload.proof = to_hex proofBytes
      ∧ read_public_inputs fs (dir ++ ["target", "public_inputs"]) = .ok payload.public_inputs
      ∧ fs1 = fs.write (dir ++ ["target", "proof.json"]) (strBytes (renderPayload payload))
      ∧ fs1.read (dir ++ ["target", "proof.json"]) = some (strBytes (renderPayload payload))
      ∧ renderPayload payload =
          "\x7b\n  \"proof\": " ++ jsonStr payload.proof ++ ",\n  \"public_inputs\": " ++
            renderPublicInputs payload.public_inputs ++ "\n\x7d" := by
  refine ⟨⟨to_hex proofBytes, (fieldChunks data).map to_hex⟩, _,
    export_directory_ok fs dir proofBytes data hp hq hm, rfl,
    read_public_inputs_ok fs _ data hq hm, rfl, FS.read_write_self _ _ _, rfl⟩

/-- C5 witness: a concrete directory with proof bytes `[0xab, 0xcd]` and a
32-zero-byte `public_inputs` file, with a stale `proof.json` already present
that gets overwritten. -/
theorem export_directory_success_output_witness :
    (FS.read ⟨[(["d", "target", "proof"], [171, 205]),
          (["d", "target", "public_inputs"], List.replicate 32 0),
          (["d", "target", "proof.json"], [9, 9])]⟩
        (["d"] ++ ["target", "proof"]) = some [171, 205])
    ∧ (List.replicate 32 (0 : Nat)).length % 32 = 0
    ∧ ∃ (payload : Payload) (fs1 : FS),
        export_directory ⟨[(["d", "target", "proof"], [171, 205]),
            (["d", "target", "public_inputs"], List.replicate 32 0),
            (["d", "target", "proof.json"], [9, 9])]⟩ ["d"] = (.ok payload, fs1)
        ∧ payload.proof = to_hex [171, 205]
        ∧ read_public_inputs ⟨[(["d", "target", "proof"], [171, 205]),
            (["d", "target", "public_inputs"], List.replicate 32 0),
            (["d", "target", "proof.json"], [9, 9])]⟩
            (["d"] ++ ["target", "public_inputs"]) = .ok payload.public_inputs
        ∧ fs1 = FS.write ⟨[(["d", "target", "proof"], [171, 205]),
            (["d", "target", "public_inputs"], List.replicate 32 0),
            (["d", "target", "proof.json"], [9, 9])]⟩
            (["d"] ++ ["target", "proof.json"]) (strBytes (renderPayload payload))
        ∧ fs1.read (["d"] ++ ["target", "proof.json"])
            = some (strBytes (renderPayload payload))
        ∧ renderPayload payload =
            "\x7b\n  \"proof\": " ++ jsonStr payload.proof ++ ",\n  \"public_inputs\": " ++
              renderPublicInputs payload.public_inputs ++ "\n\x7d" :=
  ⟨by decide, by decide,
    export_directory_success_output _ ["d"] [171, 205] (List.replicate 32 0)
      (by decide) (by decide) (by decide)⟩

/-- C6: the main loop is fail-fast: as soon as one circuit's export fails, the
loop stops with that error — no later circuit is processed, nothing further is
written to the filesystem, no aggregate report is produced (the result is
`.error`, i.e. a non-zero exit with no report printed). -/
theorem main_fail_fast (baseDir : Path) (fs : FS) (c : String) (rest : List String)
    (acc : List (String × Payload)) (e : ExportError)
    (h : (export_directory fs (baseDir ++ [c])).1 = .error e) :
    processCircuits baseDir fs (c :: rest) acc = (.error e, fs)
    ∧ (∀ q : Path, (processCircuits baseDir fs (c :: rest) acc).2.read q = fs.read q) := by
  rcases export_directory_cases fs (baseDir ++ [c]) with ⟨e2, he⟩ | ⟨p, hp⟩
  · have he2 : e2 = e := by
      rw [he] at h
      exact Except.error.inj h
    rw [he2] at he
    have hres := processCircuits_cons_error baseDir fs fs c rest acc e he
    exact ⟨hres, fun q => by rw [hres]⟩
  · rw [hp] at h
    cases h

/-- C6 witness: with an empty filesystem the first circuit fails with
`missingArtifact`, the loop aborts there and nothing is written, even though a
second circuit name is still pending. -/
theorem main_fail_fast_witness :
    ((export_directory (⟨[]⟩ : FS) (["b"] ++ ["c1"])).1
        = .error (.missingArtifact ["b", "c1"]))
    ∧ (processCircuits ["b"] ⟨[]⟩ ["c1", "c2"] [] = (.error (.missingArtifact ["b", "c1"]), ⟨[]⟩)
      ∧ ∀ q : Path, (processCircuits ["b"] ⟨[]⟩ ["c1", "c2"] []).2.read q = FS.read ⟨[]⟩ q) :=
  ⟨by decide, main_fail_fast ["b"] ⟨[]⟩ "c1" ["c2"] [] (.missingArtifact ["b", "c1"]) (by decide)⟩

/-- C7: with no positional names the orchestrator processes exactly `deposit`,
`transfer`, `withdraw` in that order, and on any successful run over distinct
names the printed report's keys are the supplied (or default) names in that
same order. -/
theorem main_default_circuits_report (fs : FS) (baseDir : Path)
    (args : List String) (r : List (String × Payload)) (fs2 : FS)
    (hnd : args.Nodup)
    (h : runMain fs args baseDir = (.ok r, fs2)) :
    (args = [] →
      runMain fs args baseDir = processCircuits baseDir fs ["deposit", "transfer", "withdraw"] [])
    ∧ r.map Prod.fst = (if args = [] then ["deposit", "transfer", "withdraw"] else args) := by
  by_cases hargs : args = []
  · subst hargs
    refine ⟨fun _ => rfl, ?_⟩
    rw [if_pos rfl]
    have hkeys := processCircuits_keys baseDir ["deposit", "transfer", "withdraw"] fs [] r fs2
      (by decide) (by simp) ?run
    · simpa using hkeys
    case run =>
      simpa [runMain, defaultCircuits] using h
  · refine ⟨fun hc => absurd hc hargs, ?_⟩
    rw [if_neg hargs]
    have hkeys := processCircuits_keys baseDir args fs [] r fs2 hnd (by simp) ?run
    · simpa using hkeys
    case run =>
      simpa [runMain, if_neg hargs] using h

/-- C7 witness: three concrete circuit directories under base `b`, each holding
an empty proof and an empty public-inputs file; the argument-less run processes
the three default names in order and reports them in that order. -/
theorem main_default_circuits_report_witness :
    (["deposit", "transfer", "withdraw"] : List String) ≠ []
    ∧ (["a"] : List String).Nodup
    ∧ (runMain ⟨[(["b", "deposit", "target", "proof"], []),
          (["b", "deposit", "target", "public_inputs"], []),
          (["b", "transfer", "target", "proof"], []),
          (["b", "transfer", "target", "public_inputs"], []),
          (["b", "withdraw", "target", "proof"], []),
          (["b", "withdraw", "target", "public_inputs"], [])]⟩ [] ["b"]
        = processCircuits ["b"] ⟨[(["b", "deposit", "target", "proof"], []),
            (["b", "deposit", "target", "public_inputs"], []),
            (["b", "transfer", "target", "proof"], []),
            (["b", "transfer", "target", "public_inputs"], []),
            (["b", "withdraw", "target", "proof"], []),
            (["b", "withdraw", "target", "public_inputs"], [])]⟩
            ["deposit", "transfer", "withdraw"] [])
    ∧ ([("deposit", (⟨"0x", []⟩ : Payload)), ("transfer", ⟨"0x", []⟩),
          ("withdraw", ⟨"0x", []⟩)].map Prod.fst
        = if ([] : List String) = [] then ["deposit", "transfer", "withdraw"]
          else ([] : List String)) :=
  ⟨by decide, by decide,
    (main_default_circuits_report ⟨[(["b", "deposit", "target", "proof"], []),
          (["b", "deposit", "target", "public_inputs"], []),
          (["b", "transfer", "target", "proof"], []),
          (["b", "transfer", "target", "public_inputs"], []),
          (["b", "withdraw", "target", "proof"], []),
          (["b", "withdraw", "target", "public_inputs"], [])]⟩ ["b"] []
        [("deposit", ⟨"0x", []⟩), ("transfer", ⟨"0x", []⟩), ("withdraw", ⟨"0x", []⟩)]
        (((FS.write ⟨[(["b", "deposit", "target", "proof"], []),
            (["b", "deposit", "target", "public_inputs"], []),
            (["b", "transfer", "target", "proof"], []),
            (["b", "transfer", "target", "public_inputs"], []),
            (["b", "withdraw", "target", "proof"], []),
            (["b", "withdraw", "target", "public_inputs"], [])]⟩
            ["b", "deposit", "target", "proof.json"]
            (strBytes (renderPayload ⟨"0x", []⟩))).write
            ["b", "transfer", "target", "proof.json"]
            (strBytes (renderPayload ⟨"0x", []⟩))).write
            ["b", "withdraw", "target", "proof.json"]
            (strBytes (renderPayload ⟨"0x", []⟩)))
        (by decide) (by decide)).1 rfl,
    (main_default_circuits_report ⟨[(["b", "deposit", "target", "proof"], []),
          (["b", "deposit", "target", "public_inputs"], []),
          (["b", "transfer", "target", "proof"], []),
          (["b", "transfer", "target", "public_inputs"], []),
          (["b", "withdraw", "target", "proof"], []),
          (["b", "withdraw", "target", "public_inputs"], [])]⟩ ["b"] []
        [("deposit", ⟨"0x", []⟩), ("transfer", ⟨"0x", []⟩), ("withdraw", ⟨"0x", []⟩)]
        (((FS.write ⟨[(["b", "deposit", "target", "proof"], []),
            (["b", "deposit", "target", "public_inputs"], []),
            (["b", "transfer", "target", "proof"], []),
            (["b", "transfer", "target", "public_inputs"], []),
            (["b", "withdraw", "target", "proof"], []),
            (["b", "withdraw", "target", "public_inputs"], [])]⟩
            ["b", "deposit", "target", "proof.json"]
            (strBytes (renderPayload ⟨"0x", []⟩))).write
            ["b", "transfer", "target", "proof.json"]
            (strBytes (renderPayload ⟨"0x", []⟩))).write
            ["b", "withdraw", "target", "proof.json"]
            (strBytes (renderPayload ⟨"0x", []⟩)))
        (by decide) (by decide)).2⟩

/-- C8: a successful export never mutates the input files — the bytes of
`target/proof` and `target/public_inputs` read back unchanged — and its only
persisted effect is the single write at `target/proof.json`: every other path
is untouched. -/
theorem export_directory_frame (fs fs1 : FS) (dir : Path) (payload : Payload)
    (h : export_directory fs dir = (.ok payload, fs1)) :
    fs1.read (dir ++ ["target", "proof"]) = fs.read (dir ++ ["target", "proof"])
    ∧ fs1.read (dir ++ ["target", "public_inputs"])
        = fs.read (dir ++ ["target", "public_inputs"])
    ∧ (∀ q : Path, q ≠ dir ++ ["target", "proof.json"] → fs1.read q = fs.read q)
    ∧ fs1.read (dir ++ ["target", "proof.json"]) = some (strBytes (renderPayload payload)) := by
  rcases export_directory_cases fs dir with ⟨e, he⟩ | ⟨p, hp⟩
  · rw [he] at h
    injection h with h1 h2
    cases h1
  · rw [hp] at h
    injection h with h1 h2
    have hpp : p = payload := Except.ok.inj h1
    subst hpp
    subst h2
    refine ⟨FS.read_write_ne fs _ _ _ (targetPath_ne dir "proof" "proof.json" (by decide)),
      FS.read_write_ne fs _ _ _ (targetPath_ne dir "public_inputs" "proof.json" (by decide)),
      fun q hq => FS.read_write_ne fs _ q _ hq, FS.read_write_self fs _ _⟩

/-- C8 witness: a concrete successful export leaves the proof and public-inputs
bytes unchanged, touches no unrelated path, and writes only `proof.json`. -/
theorem export_directory_frame_witness :
    (export_directory ⟨[(["w", "target", "proof"], [1]),
          (["w", "target", "public_inputs"], List.replicate 32 2)]⟩ ["w"]
        = (.ok ⟨to_hex [1], [to_hex (List.replicate 32 2)]⟩,
           FS.write ⟨[(["w", "target", "proof"], [1]),
             (["w", "target", "public_inputs"], List.replicate 32 2)]⟩
             (["w"] ++ ["target", "proof.json"])
             (strBytes (renderPayload ⟨to_hex [1], [to_hex (List.replicate 32 2)]⟩))))
    ∧ ((FS.write ⟨[(["w", "target", "proof"], [1]),
          (["w", "target", "public_inputs"], List.replicate 32 2)]⟩
          (["w"] ++ ["target", "proof.json"])
          (strBytes (renderPayload ⟨to_hex [1], [to_hex (List.replicate 32 2)]⟩))).read
            (["w"] ++ ["target", "proof"])
          = FS.read ⟨[(["w", "target", "proof"], [1]),
              (["w", "target", "public_inputs"], List.replicate 32 2)]⟩
              (["w"] ++ ["target", "proof"])
      ∧ (FS.write ⟨[(["w", "target", "proof"], [1]),
            (["w", "target", "public_inputs"], List.replicate 32 2)]⟩
            (["w"] ++ ["target", "proof.json"])
            (strBytes (renderPayload ⟨to_hex [1], [to_hex (List.replicate 32 2)]⟩))).read
              (["w"] ++ ["target", "public_inputs"])
            = FS.read ⟨[(["w", "target", "proof"], [1]),
                (["w", "target", "public_inputs"], List.replicate 32 2)]⟩
                (["w"] ++ ["target", "public_inputs"])
      ∧ (∀ q : Path, q ≠ ["w"] ++ ["target", "proof.json"] →
          (FS.write ⟨[(["w", "target", "proof"], [1]),
              (["w", "target", "public_inputs"], List.replicate 32 2)]⟩
              (["w"] ++ ["target", "proof.json"])
              (strBytes (renderPayload ⟨to_hex [1], [to_hex (List.replicate 32 2)]⟩))).read q
            = FS.read ⟨[(["w", "target", "proof"], [1]),
                (["w", "target", "public_inputs"], List.replicate 32 2)]⟩ q)
      ∧ (FS.write ⟨[(["w", "target", "proof"], [1]),
            (["w", "target", "public_inputs"], List.replicate 32 2)]⟩
            (["w"] ++ ["target", "proof.json"])
            (strBytes (renderPayload ⟨to_hex [1], [to_hex (List.replicate 32 2)]⟩))).read
              (["w"] ++ ["target", "proof.json"])
            = some (strBytes (renderPayload ⟨to_hex [1], [to_hex (List.replicate 32 2)]⟩))) :=
  ⟨by decide,
    export_directory_frame _ _ ["w"] ⟨to_hex [1], [to_hex (List.replicate 32 2)]⟩ (by decide)⟩

/-- C9 (implicit): when an export fails — artifact missing or malformed public
inputs — the filesystem is exactly as before; in particular a stale
`target/proof.json` from an earlier run is neither deleted nor rewritten. -/
theorem export_directory_failure_preserves_output (fs fs1 : FS) (dir : Path) (e : ExportError)
    (h : export_directory fs dir = (.error e, fs1)) :
    fs1 = fs
    ∧ fs1.read (dir ++ ["target", "proof.json"]) = fs.read (dir ++ ["target", "proof.json"]) := by
  rcases export_directory_cases fs dir with ⟨e2, he⟩ | ⟨p, hp⟩
  · rw [he] at h
    injection h with h1 h2
    exact ⟨h2.symm, by rw [h2]⟩
  · rw [hp] at h
    injection h with h1 h2
    cases h1

/-- C9 witness: a directory with a malformed 3-byte public-inputs file and a
stale `proof.json`; the failed export leaves the stale file byte-identical. -/
theorem export_directory_failure_preserves_output_witness :
    (export_directory ⟨[(["s", "target", "proof"], [5]),
          (["s", "target", "public_inputs"], [1, 2, 3]),
          (["s", "target", "proof.json"], [9])]⟩ ["s"]
        = (.error (.malformedInput (["s"] ++ ["target", "public_inputs"]) 3),
           ⟨[(["s", "target", "proof"], [5]),
             (["s", "target", "public_inputs"], [1, 2, 3]),
             (["s", "target", "proof.json"], [9])]⟩))
    ∧ ((⟨[(["s", "target", "proof"], [5]),
          (["s", "target", "public_inputs"], [1, 2, 3]),
          (["s", "target", "proof.json"], [9])]⟩ : FS)
        = ⟨[(["s", "target", "proof"], [5]),
            (["s", "target", "public_inputs"], [1, 2, 3]),
            (["s", "target", "proof.json"], [9])]⟩
      ∧ FS.read (⟨[(["s", "target", "proof"], [5]),
            (["s", "target", "public_inputs"], [1, 2, 3]),
            (["s", "target", "proof.json"], [9])]⟩ : FS) (["s"] ++ ["target", "proof.json"])
          = FS.read (⟨[(["s", "target", "proof"], [5]),
              (["s", "target", "public_inputs"], [1, 2, 3]),
              (["s", "target", "proof.json"], [9])]⟩ : FS) (["s"] ++ ["target", "proof.json"])) :=
  ⟨by decide,
    export_directory_failure_preserves_output _ _ ["s"]
      (.malformedInput (["s"] ++ ["target", "public_inputs"]) 3) (by decide)⟩

/-- C10 (implicit): whenever a circuit name occurs more than once in the
argument list, a successful run still performs one export — and hence one
output-file write — per occurrence (the execution trace carries exactly one
`(name, payload)` pair per list element, in list order, and ends in the same
final filesystem as the run), the printed report holds exactly one entry for
the duplicated name, and that entry carries the record of the name's last
occurrence. -/
theorem main_duplicate_names (fs fs2 : FS) (baseDir : Path) (args : List String)
    (c : String) (r : List (String × Payload))
    (hdup : 1 < args.count c)
    (h : runMain fs args baseDir = (.ok r, fs2)) :
    ∃ tr : List (String × Payload),
      exportTrace baseDir fs args = .ok (tr, fs2)
      ∧ tr.map Prod.fst = args
      ∧ (tr.filter (fun e => e.1 == c)).length = args.count c
      ∧ (r.filter (fun e => e.1 == c)).length = 1
      ∧ List.lookup c r = List.lookup c tr.reverse := by
  have hne : args ≠ [] := by
    intro he
    rw [he] at hdup
    simp at hdup
  have hrun : processCircuits baseDir fs args [] = (.ok r, fs2) := by
    simpa [runMain, if_neg hne] using h
  obtain ⟨tr, htr, hr, hkeys⟩ := processCircuits_trace baseDir args fs [] r fs2 hrun
  have hmem : c ∈ args := by
    have hpos : 0 < args.count c := by omega
    exact List.count_pos_iff.mp hpos
  refine ⟨tr, htr, hkeys, ?_, ?_, ?_⟩
  · rw [filter_key_length_eq_count, hkeys]
  · have hnodup : ((applyTrace [] tr).map Prod.fst).Nodup :=
      keys_applyTrace_nodup tr [] (by simp)
    have hmemr : c ∈ (applyTrace [] tr).map Prod.fst :=
      mem_keys_applyTrace tr [] c (Or.inl (by rw [hkeys]; exact hmem))
    rw [hr, filter_key_length_eq_count]
    exact List.count_eq_one_of_mem hnodup hmemr
  · rw [hr, lookup_applyTrace]
    cases hl : List.lookup c tr.reverse <;> simp [List.lookup]

/-- C10 witness: the argument list `["a", "c", "c"]` — another name present and
`c` occurring twice — over concrete directories; the run succeeds, every
occurrence is exported (and its write performed), and the report holds one
entry for `c` with the last occurrence's record. -/
theorem main_duplicate_names_witness :
    1 < (["a", "c", "c"] : List String).count "c"
    ∧ runMain ⟨[(["b", "a", "target", "proof"], []),
          (["b", "a", "target", "public_inputs"], []),
          (["b", "c", "target", "proof"], []),
          (["b", "c", "target", "public_inputs"], [])]⟩ ["a", "c", "c"] ["b"]
        = (.ok [("a", ⟨"0x", []⟩), ("c", ⟨"0x", []⟩)],
           FS.write (FS.write (FS.write ⟨[(["b", "a", "target", "proof"], []),
               (["b", "a", "target", "public_inputs"], []),
               (["b", "c", "target", "proof"], []),
               (["b", "c", "target", "public_inputs"], [])]⟩
             ["b", "a", "target", "proof.json"] (strBytes (renderPayload ⟨"0x", []⟩)))
             ["b", "c", "target", "proof.json"] (strBytes (renderPayload ⟨"0x", []⟩)))
             ["b", "c", "target", "proof.json"] (strBytes (renderPayload ⟨"0x", []⟩)))
    ∧ ∃ tr : List (String × Payload),
        exportTrace ["b"] ⟨[(["b", "a", "target", "proof"], []),
            (["b", "a", "target", "public_inputs"], []),
            (["b", "c", "target", "proof"], []),
            (["b", "c", "target", "public_inputs"], [])]⟩ ["a", "c", "c"]
          = .ok (tr,
              FS.write (FS.write (FS.write ⟨[(["b", "a", "target", "proof"], []),
                  (["b", "a", "target", "public_inputs"], []),
                  (["b", "c", "target", "proof"], []),
                  (["b", "c", "target", "public_inputs"], [])]⟩
                ["b", "a", "target", "proof.json"] (strBytes (renderPayload ⟨"0x", []⟩)))
                ["b", "c", "target", "proof.json"] (strBytes (renderPayload ⟨"0x", []⟩)))
                ["b", "c", "target", "proof.json"] (strBytes (renderPayload ⟨"0x", []⟩)))
        ∧ tr.map Prod.fst = ["a", "c", "c"]
        ∧ (tr.filter (fun e => e.1 == "c")).length = (["a", "c", "c"] : List String).count "c"
        ∧ (([("a", (⟨"0x", []⟩ : Payload)), ("c", ⟨"0x", []⟩)]).filter
            (fun e => e.1 == "c")).length = 1
        ∧ List.lookup "c" [("a", (⟨"0x", []⟩ : Payload)), ("c", ⟨"0x", []⟩)]
            = List.lookup "c" tr.reverse :=
  ⟨by decide, by decide,
    main_duplicate_names ⟨[(["b", "a", "target", "proof"], []),
        (["b", "a", "target", "public_inputs"], []),
        (["b", "c", "target", "proof"], []),
        (["b", "c", "target", "public_inputs"], [])]⟩
      (FS.write (FS.write (FS.write ⟨[(["b", "a", "target", "proof"], []),
          (["b", "a", "target", "public_inputs"], []),
          (["b", "c", "target", "proof"], []),
          (["b", "c", "target", "public_inputs"], [])]⟩
        ["b", "a", "target", "proof.json"] (strBytes (renderPayload ⟨"0x", []⟩)))
        ["b", "c", "target", "proof.json"] (strBytes (renderPayload ⟨"0x", []⟩)))
        ["b", "c", "target", "proof.json"] (strBytes (renderPayload ⟨"0x", []⟩)))
      ["b"] ["a", "c", "c"] "c" [("a", ⟨"0x", []⟩), ("c", ⟨"0x", []⟩)]
      (by decide) (by decide)⟩

end ExportProofs

